import Mathlib

/-!
Verification of the constants resolution engine of `@netlify/build`
(`packages/build/src/core/constants.ts`).

The development shallowly embeds:
* the Node.js `path` (posix) functions used by the source — `normalize`,
  `join`, `relative` (which resolves its arguments against the process
  working directory) — as executable functions over `List Char` / `String`;
* the constants record (`NetlifyPluginConstants`) and the operations
  `getConstants`, `addMutableConstants`, `addDefaultConstants`,
  `addDefaultConstant`, `normalizeConstantsPaths`, `normalizePath`,
  `isEmptyValue` together with the tables `DEFAULT_PATHS` and
  `CONSTANT_PATHS`.

External collaborators (the `path-exists` predicate, `getCacheDir` from
`@netlify/cache-utils`, the root package version) are taken as function
parameters, matching the spec's description of them as external inputs.
-/

namespace NodePath

/-- Split a character list on `'/'` (like `String.prototype.split('/')`):
returns the (possibly empty) segments between separators, in order.
The result is always non-empty. -/
def splitSl : List Char → List (List Char)
  | [] => [[]]
  | c :: cs =>
    if c = '/' then [] :: splitSl cs
    else
      match splitSl cs with
      | s :: ss => (c :: s) :: ss
      | [] => [[c]]

/-- Join segments with `'/'` separators (inverse of `splitSl` on
slash-free segments). -/
def joinSl : List (List Char) → List Char
  | [] => []
  | [s] => s
  | s :: ss => s ++ '/' :: joinSl ss

/-- The `".."` segment. -/
def dotdot : List Char := ['.', '.']

/-- One step of Node's `normalizeString`: process one raw segment against
the stack of kept segments (head of the list is the most recent segment).
Empty and `"."` segments are dropped; `".."` pops the latest plain
segment, or accumulates when `allowAboveRoot` holds and there is nothing
left to pop. -/
def pushSeg (allowAbove : Bool) (stack : List (List Char)) (seg : List Char) : List (List Char) :=
  if seg = [] ∨ seg = ['.'] then stack
  else if seg = dotdot then
    match stack with
    | [] => if allowAbove then [dotdot] else []
    | top :: rest => if top = dotdot then (if allowAbove then dotdot :: stack else stack) else rest
  else seg :: stack

/-- Node's `normalizeString` on pre-split segments: resolves `.` and `..`
segments and drops empty ones; `allowAbove` tells whether leading `..`
segments may be kept (true for relative paths, false for absolute ones). -/
def processSegs (allowAbove : Bool) (segs : List (List Char)) : List (List Char) :=
  (segs.foldl (pushSeg allowAbove) []).reverse

/-- Does the character list start with `'/'`? -/
def headSlash : List Char → Bool
  | [] => false
  | c :: _ => c = '/'

/-- Does the character list end with `'/'`? -/
def endsSlash : List Char → Bool
  | [] => false
  | [c] => c = '/'
  | _ :: c :: cs => endsSlash (c :: cs)

/-- The canonical segment body of a path: split, process dots, re-join. -/
def normBody (allowAbove : Bool) (cs : List Char) : List Char :=
  joinSl (processSegs allowAbove (splitSl cs))

/-- Node `path.posix.normalize` over character lists: purely syntactic
canonicalization; preserves absoluteness and a trailing slash, maps the
empty path to `"."`. -/
def normList (cs : List Char) : List Char :=
  if cs = [] then ['.']
  else
    let isAbs := headSlash cs
    let trailing := endsSlash cs
    let body := normBody (!isAbs) cs
    if body = [] then
      if isAbs then ['/'] else if trailing then ['.', '/'] else ['.']
    else
      let body2 := if trailing then body ++ ['/'] else body
      if isAbs then '/' :: body2 else body2

/-- Node `path.posix.normalize`. -/
def normalize (s : String) : String := ⟨normList s.data⟩

/-- Node `path.posix.resolve` with a single argument, over character
lists; `cwd` is the process working directory Node falls back to for
relative inputs. -/
def resolveL (cwd s : List Char) : List Char :=
  let base := if s = [] then cwd else if headSlash s then s else cwd ++ '/' :: s
  let body := normBody (!headSlash base) base
  if headSlash base then '/' :: body
  else if body = [] then ['.'] else body

/-- Node `path.posix.resolve` with a single argument. -/
def resolve (cwd s : String) : String := ⟨resolveL cwd.data s.data⟩

/-- Length of the common leading run of equal segments. -/
def commonLen : List (List Char) → List (List Char) → Nat
  | a :: as, b :: bs => if a = b then commonLen as bs + 1 else 0
  | _, _ => 0

/-- The non-empty segments of a resolved path. -/
def segsOfAbs (cs : List Char) : List (List Char) :=
  (splitSl cs).filter (fun s => !s.isEmpty)

/-- Node `path.posix.relative` over character lists: resolves both
arguments against `cwd`, then walks up from the first to the longest
common ancestor and down into the second. (Node's implementation scans
the resolved strings character-wise; on resolved paths this is the same
as comparing the segment lists, which is the form used here.) -/
def relativeL (cwd src dst : List Char) : List Char :=
  let f := resolveL cwd src
  let t := resolveL cwd dst
  if f = t then []
  else
    let fsegs := segsOfAbs f
    let tsegs := segsOfAbs t
    let n := commonLen fsegs tsegs
    joinSl (List.replicate (fsegs.length - n) dotdot ++ tsegs.drop n)

/-- Node `path.posix.relative`. -/
def relative (cwd src dst : String) : String := ⟨relativeL cwd.data src.data dst.data⟩

/-- Is the first list a leading run of the second? -/
def isPre : List Char → List Char → Bool
  | [], _ => true
  | _ :: _, [] => false
  | a :: as, b :: bs => a = b && isPre as bs

/-- JavaScript `String.prototype.startsWith`. -/
def startsWithS (s pat : String) : Bool := isPre pat.data s.data

/-- Is the string an absolute path (starts with `'/'`)? -/
def isAbsS (s : String) : Bool := headSlash s.data

/-- Node `path.posix.join`: drop empty parts, join the rest with `'/'`
and normalize; with no non-empty part the result is `"."`. -/
def joinList (parts : List String) : String :=
  let ps := parts.filter (fun p => p ≠ "")
  if ps = [] then "." else normalize ⟨joinSl (ps.map String.data)⟩

/-- A slash-free character list (the content of one path segment). -/
def noSlash (s : List Char) : Prop := '/' ∉ s

/-- A plain path segment: non-empty, not a dot segment, slash-free. -/
def goodSeg (s : List Char) : Prop := s ≠ [] ∧ s ≠ ['.'] ∧ s ≠ dotdot ∧ noSlash s

end NodePath

namespace Build

open NodePath

/-- The `NetlifyPluginConstants` record. String-valued fields are
`Option String` (`none` = the key is absent / `undefined`); `IS_LOCAL`
is the only boolean field. In `getConstants` the initial object carries
no `PUBLISH_DIR` / `FUNCTIONS_SRC` / `EDGE_FUNCTIONS_SRC` keys; since
`addMutableConstants` overwrites those three unconditionally, `none`
faithfully stands for the absent key. -/
structure Constants where
  CONFIG_PATH : Option String := none
  PUBLISH_DIR : Option String := none
  FUNCTIONS_SRC : Option String := none
  PACKAGE_PATH : Option String := none
  INTERNAL_EDGE_FUNCTIONS_SRC : Option String := none
  INTERNAL_FUNCTIONS_SRC : Option String := none
  FUNCTIONS_DIST : Option String := none
  EDGE_FUNCTIONS_DIST : Option String := none
  EDGE_FUNCTIONS_SRC : Option String := none
  IS_LOCAL : Bool := false
  NETLIFY_BUILD_VERSION : Option String := none
  SITE_ID : Option String := none
  NETLIFY_API_TOKEN : Option String := none
  NETLIFY_API_HOST : Option String := none
  CACHE_DIR : Option String := none
  deriving DecidableEq

/-- Dynamic read of a string-valued constant by key name (JavaScript
`constants[constantName]`); unknown keys read as absent. -/
def getField (c : Constants) (key : String) : Option String :=
  if key = "CONFIG_PATH" then c.CONFIG_PATH
  else if key = "PUBLISH_DIR" then c.PUBLISH_DIR
  else if key = "FUNCTIONS_SRC" then c.FUNCTIONS_SRC
  else if key = "PACKAGE_PATH" then c.PACKAGE_PATH
  else if key = "INTERNAL_EDGE_FUNCTIONS_SRC" then c.INTERNAL_EDGE_FUNCTIONS_SRC
  else if key = "INTERNAL_FUNCTIONS_SRC" then c.INTERNAL_FUNCTIONS_SRC
  else if key = "FUNCTIONS_DIST" then c.FUNCTIONS_DIST
  else if key = "EDGE_FUNCTIONS_DIST" then c.EDGE_FUNCTIONS_DIST
  else if key = "EDGE_FUNCTIONS_SRC" then c.EDGE_FUNCTIONS_SRC
  else if key = "NETLIFY_BUILD_VERSION" then c.NETLIFY_BUILD_VERSION
  else if key = "SITE_ID" then c.SITE_ID
  else if key = "NETLIFY_API_TOKEN" then c.NETLIFY_API_TOKEN
  else if key = "NETLIFY_API_HOST" then c.NETLIFY_API_HOST
  else if key = "CACHE_DIR" then c.CACHE_DIR
  else none

/-- Dynamic write of a string-valued constant by key name (JavaScript
computed property `{ [constantName]: value }` merged into the record);
unknown keys write nothing. -/
def setField (c : Constants) (key : String) (v : Option String) : Constants :=
  if key = "CONFIG_PATH" then { c with CONFIG_PATH := v }
  else if key = "PUBLISH_DIR" then { c with PUBLISH_DIR := v }
  else if key = "FUNCTIONS_SRC" then { c with FUNCTIONS_SRC := v }
  else if key = "PACKAGE_PATH" then { c with PACKAGE_PATH := v }
  else if key = "INTERNAL_EDGE_FUNCTIONS_SRC" then { c with INTERNAL_EDGE_FUNCTIONS_SRC := v }
  else if key = "INTERNAL_FUNCTIONS_SRC" then { c with INTERNAL_FUNCTIONS_SRC := v }
  else if key = "FUNCTIONS_DIST" then { c with FUNCTIONS_DIST := v }
  else if key = "EDGE_FUNCTIONS_DIST" then { c with EDGE_FUNCTIONS_DIST := v }
  else if key = "EDGE_FUNCTIONS_SRC" then { c with EDGE_FUNCTIONS_SRC := v }
  else if key = "NETLIFY_BUILD_VERSION" then { c with NETLIFY_BUILD_VERSION := v }
  else if key = "SITE_ID" then { c with SITE_ID := v }
  else if key = "NETLIFY_API_TOKEN" then { c with NETLIFY_API_TOKEN := v }
  else if key = "NETLIFY_API_HOST" then { c with NETLIFY_API_HOST := v }
  else if key = "CACHE_DIR" then { c with CACHE_DIR := v }
  else c

/-- `isEmptyValue` from the source: `undefined` and the empty string
count as unset. -/
def isEmptyValue : Option String → Bool
  | none => true
  | some path => path = ""

/-- The `CONSTANT_PATHS` set from the source: keys whose values are
paths relative to the build directory. -/
def CONSTANT_PATHS : List String :=
  ["CONFIG_PATH", "PUBLISH_DIR", "FUNCTIONS_SRC", "FUNCTIONS_DIST",
   "INTERNAL_EDGE_FUNCTIONS_SRC", "INTERNAL_FUNCTIONS_SRC",
   "EDGE_FUNCTIONS_DIST", "EDGE_FUNCTIONS_SRC", "CACHE_DIR"]

/-- `normalizePath` from the source; `cwd` is the process working
directory the Node `path.relative` call implicitly depends on. -/
def normalizePath (cwd : String) (path : Option String) (buildDir key : String) : Option String :=
  match path with
  | none => none
  | some p =>
    if p = "" ∨ CONSTANT_PATHS.contains key = false then some p
    else
      let pathA := NodePath.normalize p
      if pathA = buildDir then some "."
      else if startsWithS pathA buildDir then some (NodePath.relative cwd buildDir pathA)
      else some pathA

/-- `normalizeConstantsPaths` from the source: `mapObj` applies
`normalizePath` to every entry with its own key; on the boolean
`IS_LOCAL` the `CONSTANT_PATHS` guard makes that the identity, which is
what keeping the field does here. -/
def normalizeConstantsPaths (cwd : String) (constants : Constants) (buildDir : String) : Constants :=
  { CONFIG_PATH := normalizePath cwd constants.CONFIG_PATH buildDir "CONFIG_PATH"
    PUBLISH_DIR := normalizePath cwd constants.PUBLISH_DIR buildDir "PUBLISH_DIR"
    FUNCTIONS_SRC := normalizePath cwd constants.FUNCTIONS_SRC buildDir "FUNCTIONS_SRC"
    PACKAGE_PATH := normalizePath cwd constants.PACKAGE_PATH buildDir "PACKAGE_PATH"
    INTERNAL_EDGE_FUNCTIONS_SRC :=
      normalizePath cwd constants.INTERNAL_EDGE_FUNCTIONS_SRC buildDir "INTERNAL_EDGE_FUNCTIONS_SRC"
    INTERNAL_FUNCTIONS_SRC :=
      normalizePath cwd constants.INTERNAL_FUNCTIONS_SRC buildDir "INTERNAL_FUNCTIONS_SRC"
    FUNCTIONS_DIST := normalizePath cwd constants.FUNCTIONS_DIST buildDir "FUNCTIONS_DIST"
    EDGE_FUNCTIONS_DIST := normalizePath cwd constants.EDGE_FUNCTIONS_DIST buildDir "EDGE_FUNCTIONS_DIST"
    EDGE_FUNCTIONS_SRC := normalizePath cwd constants.EDGE_FUNCTIONS_SRC buildDir "EDGE_FUNCTIONS_SRC"
    IS_LOCAL := constants.IS_LOCAL
    NETLIFY_BUILD_VERSION := normalizePath cwd constants.NETLIFY_BUILD_VERSION buildDir "NETLIFY_BUILD_VERSION"
    SITE_ID := normalizePath cwd constants.SITE_ID buildDir "SITE_ID"
    NETLIFY_API_TOKEN := normalizePath cwd constants.NETLIFY_API_TOKEN buildDir "NETLIFY_API_TOKEN"
    NETLIFY_API_HOST := normalizePath cwd constants.NETLIFY_API_HOST buildDir "NETLIFY_API_HOST"
    CACHE_DIR := normalizePath cwd constants.CACHE_DIR buildDir "CACHE_DIR" }

/-- One `DEFAULT_PATHS` rule: a constant name and a candidate path
relative to the build directory. -/
structure DefaultPathRule where
  constantName : String
  defaultPath : String

/-- The `DEFAULT_PATHS` table from the source, in declared order. -/
def DEFAULT_PATHS : List DefaultPathRule :=
  [⟨"FUNCTIONS_SRC", "netlify-automatic-functions"⟩,
   ⟨"FUNCTIONS_SRC", "netlify/functions"⟩,
   ⟨"EDGE_FUNCTIONS_SRC", "netlify/edge-functions"⟩]

/-- `addDefaultConstant` from the source. `pathEx` is the `path-exists`
predicate (an external collaborator; it never throws, any I/O failure
reads as `false`). Returns `none` for the empty object `{}` and
`some (name, path)` for `{ [constantName]: defaultPath }`. -/
def addDefaultConstant (pathEx : String → Bool) (constants : Constants)
    (constantName defaultPath buildDir : String) : Option (String × String) :=
  if isEmptyValue (getField constants constantName) = false
      ∨ pathEx (buildDir ++ "/" ++ defaultPath) = false then
    none
  else
    some (constantName, defaultPath)

/-- One `Object.assign` step: merge one produced object (`{}` or
`{ [k]: v }`) into the accumulated record. -/
def applyUpdate (acc : Constants) : Option (String × String) → Constants
  | none => acc
  | some (k, v) => setField acc k (some v)

/-- `addDefaultConstants` from the source: every rule is evaluated
against the same input record (`Promise.all` over `DEFAULT_PATHS.map`),
and the produced singleton objects are merged left to right on top of
the record (`Object.assign({}, constants, ...newConstants)`), so a later
update overwrites an earlier one for the same key. -/
def addDefaultConstants (pathEx : String → Bool) (constants : Constants) (buildDir : String) : Constants :=
  let newConstants := DEFAULT_PATHS.map fun r =>
    addDefaultConstant pathEx constants r.constantName r.defaultPath buildDir
  newConstants.foldl applyUpdate constants

/-- The `build` part of the mutable configuration snapshot. -/
structure BuildConfig where
  publish : Option String := none
  edge_functions : Option String := none

/-- The configuration snapshot read by `addMutableConstants`. -/
structure NetlifyConfig where
  build : BuildConfig := {}
  functionsDirectory : Option String := none

/-- The record `constantsA` built inside `addMutableConstants`: the spread
of the previous constants with the three configuration-derived fields
overwritten unconditionally. -/
def mutableOverlay (constants : Constants) (netlifyConfig : NetlifyConfig) : Constants :=
  { constants with
    PUBLISH_DIR := netlifyConfig.build.publish
    FUNCTIONS_SRC := netlifyConfig.functionsDirectory
    EDGE_FUNCTIONS_SRC := netlifyConfig.build.edge_functions }

/-- `addMutableConstants` from the source: unconditionally overlay the
three configuration-derived fields, then run default detection, then
path normalization. -/
def addMutableConstants (pathEx : String → Bool) (cwd : String) (constants : Constants)
    (buildDir : String) (netlifyConfig : NetlifyConfig) : Constants :=
  let constantsA := mutableOverlay constants netlifyConfig
  let constantsB := addDefaultConstants pathEx constantsA buildDir
  let constantsC := normalizeConstantsPaths cwd constantsB buildDir
  constantsC

/-- `INTERNAL_EDGE_FUNCTIONS_SRC` constant from the source. -/
def INTERNAL_EDGE_FUNCTIONS_SRC : String := ".netlify/edge-functions"

/-- `INTERNAL_FUNCTIONS_SRC` constant from the source. -/
def INTERNAL_FUNCTIONS_SRC : String := ".netlify/functions-internal"

/-- JavaScript `packagePath || ''`: `undefined` and `''` both read as
`''`. -/
def orEmptyStr : Option String → String
  | none => ""
  | some s => s

/-- The named arguments of `getConstants`. -/
structure GetConstantsArgs where
  configPath : Option String := none
  buildDir : String
  packagePath : Option String := none
  functionsDistDir : String
  edgeFunctionsDistDir : String
  cacheDir : Option String := none
  netlifyConfig : NetlifyConfig := {}
  siteId : Option String := none
  apiHost : Option String := none
  token : Option String := none
  mode : String

/-- The `constants` object literal built inside `getConstants`, before
`addMutableConstants` runs. `getCacheDirF` stands for `getCacheDir` from
`@netlify/cache-utils` (external collaborator, arguments
`cacheDir` and `cwd`); `version` stands for
`ROOT_PACKAGE_JSON.version`. -/
def getConstantsBase (getCacheDirF : Option String → String → String) (version : String)
    (a : GetConstantsArgs) : Constants :=
  let isLocal : Bool := a.mode ≠ "buildbot"
  let normalizedCacheDir := getCacheDirF a.cacheDir (joinList [a.buildDir, orEmptyStr a.packagePath])
  { CONFIG_PATH := a.configPath
    PACKAGE_PATH := a.packagePath
    FUNCTIONS_DIST :=
      some (if isLocal = false then a.functionsDistDir
            else joinList [orEmptyStr a.packagePath, a.functionsDistDir])
    EDGE_FUNCTIONS_DIST :=
      some (if isLocal = false then a.edgeFunctionsDistDir
            else joinList [orEmptyStr a.packagePath, a.edgeFunctionsDistDir])
    CACHE_DIR := some normalizedCacheDir
    IS_LOCAL := isLocal
    NETLIFY_BUILD_VERSION := some version
    SITE_ID := a.siteId
    NETLIFY_API_TOKEN := a.token
    NETLIFY_API_HOST := a.apiHost
    INTERNAL_FUNCTIONS_SRC :=
      some (joinList [a.buildDir, orEmptyStr a.packagePath, INTERNAL_FUNCTIONS_SRC])
    INTERNAL_EDGE_FUNCTIONS_SRC :=
      some (joinList [a.buildDir, orEmptyStr a.packagePath, INTERNAL_EDGE_FUNCTIONS_SRC])
    PUBLISH_DIR := none
    FUNCTIONS_SRC := none
    EDGE_FUNCTIONS_SRC := none }

/-- `getConstants` from the source: build the base record, then run
`addMutableConstants` on it. -/
def getConstants (getCacheDirF : Option String → String → String) (version : String)
    (pathEx : String → Bool) (cwd : String) (a : GetConstantsArgs) : Constants :=
  addMutableConstants pathEx cwd (getConstantsBase getCacheDirF version a) a.buildDir a.netlifyConfig

end Build

namespace NodePath

theorem splitSl_ne_nil (cs : List Char) : splitSl cs ≠ [] := by
  induction cs with
  | nil => simp [splitSl]
  | cons c cs ih =>
    simp only [splitSl]
    split
    · simp
    · rcases h : splitSl cs with _ | ⟨s, ss⟩ <;> simp [h]

theorem noSlash_of_mem_splitSl (cs : List Char) : ∀ s ∈ splitSl cs, noSlash s := by
  induction cs with
  | nil =>
    intro s hs
    simp only [splitSl, List.mem_singleton] at hs
    simp [hs, noSlash]
  | cons c cs ih =>
    intro s hs
    simp only [splitSl] at hs
    by_cases hc : c = '/'
    · rw [if_pos hc] at hs
      rcases List.mem_cons.mp hs with h | h
      · simp [h, noSlash]
      · exact ih s h
    · rw [if_neg hc] at hs
      rcases h0 : splitSl cs with _ | ⟨s0, ss0⟩
      · exact absurd h0 (splitSl_ne_nil cs)
      · rw [h0] at hs
        rcases List.mem_cons.mp hs with h | h
        · subst h
          have hs0 : noSlash s0 := ih s0 (h0 ▸ List.mem_cons_self s0 ss0)
          intro hmem
          rcases List.mem_cons.mp hmem with h | h
          · exact hc h.symm
          · exact hs0 h
        · exact ih s (h0 ▸ List.mem_cons_of_mem s0 h)

theorem splitSl_of_noSlash {s : List Char} (h : noSlash s) : splitSl s = [s] := by
  induction s with
  | nil => rfl
  | cons c cs ih =>
    have hc : c ≠ '/' := fun hc => h (hc ▸ List.mem_cons_self c cs)
    have hcs : noSlash cs := fun hm => h (List.mem_cons_of_mem c hm)
    simp only [splitSl, if_neg (fun hcc => hc hcc), ih hcs]

theorem splitSl_append_slash {s t : List Char} (h : noSlash s) :
    splitSl (s ++ '/' :: t) = s :: splitSl t := by
  induction s with
  | nil => simp [splitSl]
  | cons c cs ih =>
    have hc : c ≠ '/' := fun hc => h (hc ▸ List.mem_cons_self c cs)
    have hcs : noSlash cs := fun hm => h (List.mem_cons_of_mem c hm)
    simp only [List.cons_append, splitSl, if_neg (fun hcc => hc hcc), List.append_eq, ih hcs]

theorem splitSl_concat_slash (u : List Char) : splitSl (u ++ ['/']) = splitSl u ++ [[]] := by
  induction u with
  | nil => rfl
  | cons c u ih =>
    by_cases hc : c = '/'
    · simp only [List.cons_append, splitSl, if_pos hc, List.append_eq, ih, List.cons_append]
    · simp only [List.cons_append, splitSl, if_neg hc, List.append_eq, ih]
      rcases h0 : splitSl u with _ | ⟨s0, ss0⟩
      · exact absurd h0 (splitSl_ne_nil u)
      · simp [h0]

theorem joinSl_ne_nil {segs : List (List Char)} (h1 : segs ≠ [])
    (h2 : ∀ s ∈ segs, s ≠ []) : joinSl segs ≠ [] := by
  rcases segs with _ | ⟨s, ss⟩
  · exact absurd rfl h1
  · rcases ss with _ | ⟨s', ss'⟩
    · exact h2 s (List.mem_cons_self s [])
    · simp [joinSl]

theorem splitSl_joinSl {segs : List (List Char)} (h1 : segs ≠ [])
    (h2 : ∀ s ∈ segs, noSlash s) : splitSl (joinSl segs) = segs := by
  induction segs with
  | nil => exact absurd rfl h1
  | cons s ss ih =>
    rcases ss with _ | ⟨s', ss'⟩
    · exact splitSl_of_noSlash (h2 s (List.mem_cons_self s []))
    · have hs : noSlash s := h2 s (List.mem_cons_self s _)
      have : joinSl (s :: s' :: ss') = s ++ '/' :: joinSl (s' :: ss') := rfl
      rw [this, splitSl_append_slash hs,
        ih (by simp) (fun x hx => h2 x (List.mem_cons_of_mem s hx))]

theorem headSlash_append {u v : List Char} (h : u ≠ []) : headSlash (u ++ v) = headSlash u := by
  rcases u with _ | ⟨c, cs⟩
  · exact absurd rfl h
  · rfl

theorem headSlash_eq_false_of_noSlash {s : List Char} (h2 : noSlash s) :
    headSlash s = false := by
  rcases s with _ | ⟨c, cs⟩
  · rfl
  · have hc : c ≠ '/' := fun hc => h2 (hc ▸ List.mem_cons_self c cs)
    simp [headSlash, hc]

theorem headSlash_joinSl {s : List Char} {ss : List (List Char)} (h2 : noSlash s)
    (h1 : s ≠ []) : headSlash (joinSl (s :: ss)) = false := by
  rcases ss with _ | ⟨s', ss'⟩
  · exact headSlash_eq_false_of_noSlash h2
  · have : joinSl (s :: s' :: ss') = s ++ '/' :: joinSl (s' :: ss') := rfl
    rw [this, headSlash_append h1]
    exact headSlash_eq_false_of_noSlash h2

theorem endsSlash_cons {c : Char} {cs : List Char} (h : cs ≠ []) :
    endsSlash (c :: cs) = endsSlash cs := by
  rcases cs with _ | ⟨c', cs'⟩
  · exact absurd rfl h
  · rfl

theorem endsSlash_append {u v : List Char} (h : v ≠ []) :
    endsSlash (u ++ v) = endsSlash v := by
  induction u with
  | nil => rfl
  | cons c u ih =>
    have huv : u ++ v ≠ [] := by
      rcases v with _ | _
      · exact absurd rfl h
      · simp
    rw [List.cons_append, endsSlash_cons huv, ih]

theorem endsSlash_eq_false_of_noSlash {s : List Char} (h2 : noSlash s) :
    endsSlash s = false := by
  induction s with
  | nil => rfl
  | cons c cs ih =>
    rcases cs with _ | ⟨c', cs'⟩
    · have hc : c ≠ '/' := fun hc => h2 (hc ▸ List.mem_cons_self c [])
      simp [endsSlash, hc]
    · rw [endsSlash_cons (by simp)]
      exact ih (fun hm => h2 (List.mem_cons_of_mem c hm))

theorem endsSlash_joinSl {segs : List (List Char)}
    (h : ∀ s ∈ segs, s ≠ [] ∧ noSlash s) : endsSlash (joinSl segs) = false := by
  induction segs with
  | nil => rfl
  | cons s ss ih =>
    rcases ss with _ | ⟨s', ss'⟩
    · exact endsSlash_eq_false_of_noSlash (h s (List.mem_cons_self s [])).2
    · have : joinSl (s :: s' :: ss') = s ++ '/' :: joinSl (s' :: ss') := rfl
      have hj : joinSl (s' :: ss') ≠ [] :=
        joinSl_ne_nil (by simp)
          (fun x hx => (h x (List.mem_cons_of_mem s hx)).1)
      rw [this, endsSlash_append (by simp), endsSlash_cons hj]
      exact ih (fun x hx => h x (List.mem_cons_of_mem s hx))

theorem pushSeg_empty (a : Bool) (st : List (List Char)) : pushSeg a st [] = st := by
  simp [pushSeg]

theorem pushSeg_good {s : List Char} (a : Bool) (st : List (List Char)) (h : goodSeg s) :
    pushSeg a st s = s :: st := by
  obtain ⟨h1, h2, h3, _⟩ := h
  simp [pushSeg, h1, h2, h3]

theorem foldl_pushSeg_good {ps : List (List Char)} (a : Bool)
    (h : ∀ s ∈ ps, goodSeg s) :
    ∀ st : List (List Char), ps.foldl (pushSeg a) st = ps.reverse ++ st := by
  induction ps with
  | nil => intro st; rfl
  | cons p ps ih =>
    intro st
    have hp : goodSeg p := h p (List.mem_cons_self p ps)
    rw [List.foldl_cons, pushSeg_good a st hp,
      ih (fun s hs => h s (List.mem_cons_of_mem p hs)) (p :: st)]
    simp

theorem pushSeg_skip {s : List Char} (a : Bool) (st : List (List Char))
    (h : s = [] ∨ s = ['.']) : pushSeg a st s = st := by
  unfold pushSeg
  rw [if_pos h]

theorem dotdot_ne_nil_dot : dotdot ≠ [] ∧ dotdot ≠ ['.'] := by
  constructor <;> simp [dotdot]

theorem pushSeg_dd_nil (a : Bool) :
    pushSeg a [] dotdot = if a then [dotdot] else [] := by
  unfold pushSeg
  rw [if_neg (by simp [dotdot]), if_pos rfl]

theorem pushSeg_dd_top_dd (a : Bool) (st : List (List Char)) :
    pushSeg a (dotdot :: st) dotdot =
      if a then dotdot :: dotdot :: st else dotdot :: st := by
  unfold pushSeg
  rw [if_neg (by simp [dotdot]), if_pos rfl]
  simp

theorem pushSeg_dd_top_plain {p : List Char} (a : Bool) (st : List (List Char))
    (hp : p ≠ dotdot) : pushSeg a (p :: st) dotdot = st := by
  unfold pushSeg
  rw [if_neg (by simp [dotdot]), if_pos rfl]
  simp [hp]

theorem pushSeg_dd_stack (k : Nat) :
    pushSeg true (List.replicate k dotdot) dotdot = List.replicate (k + 1) dotdot := by
  cases k with
  | zero => rw [List.replicate_zero, pushSeg_dd_nil]; simp
  | succ m =>
    rw [List.replicate_succ, pushSeg_dd_top_dd]
    simp [List.replicate_succ]

theorem foldl_pushSeg_dd (n : Nat) :
    ∀ k : Nat, (List.replicate n dotdot).foldl (pushSeg true) (List.replicate k dotdot) =
      List.replicate (n + k) dotdot := by
  induction n with
  | zero => intro k; simp
  | succ m ih =>
    intro k
    rw [List.replicate_succ, List.foldl_cons, pushSeg_dd_stack k, ih (k + 1)]
    congr 1
    omega

theorem foldl_pushSeg_dd_zero (n : Nat) :
    (List.replicate n dotdot).foldl (pushSeg true) [] = List.replicate n dotdot := by
  have := foldl_pushSeg_dd n 0
  simpa using this

theorem foldl_pushSeg_shape {segs : List (List Char)} {a : Bool}
    (h : ∀ s ∈ segs, noSlash s) :
    ∀ (ps : List (List Char)) (n : Nat), (∀ s ∈ ps, goodSeg s) → (a = false → n = 0) →
      ∃ ps' n', segs.foldl (pushSeg a) (ps ++ List.replicate n dotdot) =
          ps' ++ List.replicate n' dotdot ∧ (∀ s ∈ ps', goodSeg s) ∧ (a = false → n' = 0) := by
  induction segs with
  | nil => exact fun ps n hps hn => ⟨ps, n, rfl, hps, hn⟩
  | cons seg segs ih =>
    intro ps n hps hn
    have hsegs : ∀ s ∈ segs, noSlash s := fun s hs => h s (List.mem_cons_of_mem seg hs)
    have hseg : noSlash seg := h seg (List.mem_cons_self seg segs)
    rw [List.foldl_cons]
    by_cases h1 : seg = [] ∨ seg = ['.']
    · rw [pushSeg_skip a _ h1]
      exact ih hsegs ps n hps hn
    · by_cases h2 : seg = dotdot
      · subst h2
        rcases ps with _ | ⟨p, ps'⟩
        · rcases n with _ | m
          · rw [show ([] : List (List Char)) ++ List.replicate 0 dotdot = [] from rfl,
              pushSeg_dd_nil]
            cases a with
            | false =>
              simpa using ih hsegs [] 0 (by simp) (fun _ => rfl)
            | true =>
              simpa using ih hsegs [] 1 (by simp) (by simp)
          · rw [show ([] : List (List Char)) ++ List.replicate (m + 1) dotdot =
                dotdot :: List.replicate m dotdot by simp [List.replicate_succ]]
            cases a with
            | false => exact absurd (hn rfl) (by simp)
            | true =>
              rw [pushSeg_dd_top_dd]
              simp only [if_pos rfl]
              have := ih hsegs [] (m + 2) (by simp) (by simp)
              simpa [List.replicate_succ] using this
        · have hp : goodSeg p := hps p (List.mem_cons_self p ps')
          rw [List.cons_append, pushSeg_dd_top_plain a _ hp.2.2.1]
          exact ih hsegs ps' n (fun s hs => hps s (List.mem_cons_of_mem p hs)) hn
      · have hgood : goodSeg seg :=
          ⟨fun hx => h1 (Or.inl hx), fun hx => h1 (Or.inr hx), h2, hseg⟩
        rw [pushSeg_good a _ hgood]
        refine ih hsegs (seg :: ps) n ?_ hn
        intro s hs
        rcases List.mem_cons.mp hs with hx | hx
        · exact hx ▸ hgood
        · exact hps s hx

theorem processSegs_shape {segs : List (List Char)} (a : Bool)
    (h : ∀ s ∈ segs, noSlash s) :
    ∃ n ps, processSegs a segs = List.replicate n dotdot ++ ps ∧ (∀ s ∈ ps, goodSeg s) ∧
      (a = false → n = 0) := by
  obtain ⟨ps', n', heq, hps', hn'⟩ := foldl_pushSeg_shape h [] 0 (by simp) (fun _ => rfl)
  refine ⟨n', ps'.reverse, ?_, fun s hs => hps' s (List.mem_reverse.mp hs), hn'⟩
  unfold processSegs
  rw [show ([] : List (List Char)) ++ List.replicate 0 dotdot = [] from rfl] at heq
  rw [heq, List.reverse_append, List.reverse_replicate]

theorem processSegs_cons_empty (a : Bool) (segs : List (List Char)) :
    processSegs a ([] :: segs) = processSegs a segs := by
  unfold processSegs
  rw [List.foldl_cons, pushSeg_empty]

theorem processSegs_append_empty (a : Bool) (segs : List (List Char)) :
    processSegs a (segs ++ [[]]) = processSegs a segs := by
  unfold processSegs
  rw [List.foldl_append, List.foldl_cons, pushSeg_empty, List.foldl_nil]

theorem processSegs_idem {ps : List (List Char)} {n : Nat} (a : Bool)
    (hps : ∀ s ∈ ps, goodSeg s) (hn : a = false → n = 0) :
    processSegs a (List.replicate n dotdot ++ ps) = List.replicate n dotdot ++ ps := by
  unfold processSegs
  rw [List.foldl_append]
  cases a with
  | false =>
    rw [hn rfl]
    rw [show (List.replicate 0 dotdot).foldl (pushSeg false) [] = [] from rfl,
      foldl_pushSeg_good false hps []]
    simp
  | true =>
    rw [foldl_pushSeg_dd_zero, foldl_pushSeg_good true hps _, List.reverse_append,
      List.reverse_reverse, List.reverse_replicate]

theorem splitSl_cons_slash (u : List Char) : splitSl ('/' :: u) = [] :: splitSl u := by
  simp [splitSl]

theorem normList_of_body {cs : List Char} (hcs : cs ≠ []) :
    normList cs =
      if normBody (!headSlash cs) cs = [] then
        (if headSlash cs then ['/'] else if endsSlash cs then ['.', '/'] else ['.'])
      else
        (if headSlash cs then
          '/' :: (if endsSlash cs then normBody (!headSlash cs) cs ++ ['/']
                  else normBody (!headSlash cs) cs)
        else (if endsSlash cs then normBody (!headSlash cs) cs ++ ['/']
              else normBody (!headSlash cs) cs)) := by
  unfold normList
  rw [if_neg hcs]

theorem normList_ne_nil (cs : List Char) : normList cs ≠ [] := by
  by_cases hcs : cs = []
  · subst hcs; decide
  · rw [normList_of_body hcs]
    split_ifs <;> simp_all

theorem normList_fix_rel {segs : List (List Char)} (hfix : processSegs true segs = segs)
    (hjne : joinSl segs ≠ []) (hhead : headSlash (joinSl segs) = false)
    (hends : endsSlash (joinSl segs) = false) (hsplit : splitSl (joinSl segs) = segs) :
    normList (joinSl segs) = joinSl segs := by
  have hbody : normBody (!headSlash (joinSl segs)) (joinSl segs) = joinSl segs := by
    rw [hhead]
    unfold normBody
    rw [hsplit, Bool.not_false, hfix]
  rw [normList_of_body hjne, hbody, if_neg hjne, hhead, hends]
  simp

theorem normList_fix_rel_trail {segs : List (List Char)} (hfix : processSegs true segs = segs)
    (hjne : joinSl segs ≠ []) (hhead : headSlash (joinSl segs) = false)
    (hsplit : splitSl (joinSl segs) = segs) :
    normList (joinSl segs ++ ['/']) = joinSl segs ++ ['/'] := by
  have hne2 : joinSl segs ++ ['/'] ≠ [] := by simp
  have hhead2 : headSlash (joinSl segs ++ ['/']) = false := by
    rw [headSlash_append hjne]; exact hhead
  have hends2 : endsSlash (joinSl segs ++ ['/']) = true := by
    rw [endsSlash_append (by simp : (['/'] : List Char) ≠ [])]; rfl
  have hbody : normBody (!headSlash (joinSl segs ++ ['/'])) (joinSl segs ++ ['/']) =
      joinSl segs := by
    rw [hhead2]
    unfold normBody
    rw [splitSl_concat_slash, hsplit, processSegs_append_empty, Bool.not_false, hfix]
  rw [normList_of_body hne2, hbody, if_neg hjne, hhead2, hends2]
  simp

theorem normList_fix_abs {segs : List (List Char)} (hfix : processSegs false segs = segs)
    (hjne : joinSl segs ≠ []) (hends : endsSlash (joinSl segs) = false)
    (hsplit : splitSl (joinSl segs) = segs) :
    normList ('/' :: joinSl segs) = '/' :: joinSl segs := by
  have hne2 : ('/' :: joinSl segs : List Char) ≠ [] := by simp
  have hhead2 : headSlash ('/' :: joinSl segs) = true := by simp [headSlash]
  have hends2 : endsSlash ('/' :: joinSl segs) = false := by
    rw [endsSlash_cons hjne]; exact hends
  have hbody : normBody (!headSlash ('/' :: joinSl segs)) ('/' :: joinSl segs) =
      joinSl segs := by
    rw [hhead2]
    unfold normBody
    rw [splitSl_cons_slash, hsplit, processSegs_cons_empty, Bool.not_true, hfix]
  rw [normList_of_body hne2, hbody, if_neg hjne, hhead2, hends2]
  simp

theorem normList_fix_abs_trail {segs : List (List Char)} (hfix : processSegs false segs = segs)
    (hjne : joinSl segs ≠ []) (hsplit : splitSl (joinSl segs) = segs) :
    normList ('/' :: (joinSl segs ++ ['/'])) = '/' :: (joinSl segs ++ ['/']) := by
  have hne2 : ('/' :: (joinSl segs ++ ['/']) : List Char) ≠ [] := by simp
  have hhead2 : headSlash ('/' :: (joinSl segs ++ ['/'])) = true := by simp [headSlash]
  have hends2 : endsSlash ('/' :: (joinSl segs ++ ['/'])) = true := by
    rw [endsSlash_cons (by simp), endsSlash_append (by simp : (['/'] : List Char) ≠ [])]
    rfl
  have hbody : normBody (!headSlash ('/' :: (joinSl segs ++ ['/'])))
      ('/' :: (joinSl segs ++ ['/'])) = joinSl segs := by
    rw [hhead2]
    unfold normBody
    rw [splitSl_cons_slash, splitSl_concat_slash, hsplit, processSegs_cons_empty,
      processSegs_append_empty, Bool.not_true, hfix]
  rw [normList_of_body hne2, hbody, if_neg hjne, hhead2, hends2]
  simp

theorem normList_joinSl_fix {segs : List (List Char)} (hne : segs ≠ [])
    (hmem : ∀ s ∈ segs, s ≠ [] ∧ noSlash s) (hfix : processSegs true segs = segs) :
    normList (joinSl segs) = joinSl segs := by
  have hjne : joinSl segs ≠ [] := joinSl_ne_nil hne (fun s hs => (hmem s hs).1)
  have hhead : headSlash (joinSl segs) = false := by
    rcases segs with _ | ⟨s, ss⟩
    · exact absurd rfl hne
    · exact headSlash_joinSl (hmem s (List.mem_cons_self s ss)).2
        (hmem s (List.mem_cons_self s ss)).1
  have hends : endsSlash (joinSl segs) = false := endsSlash_joinSl hmem
  have hsplit : splitSl (joinSl segs) = segs := splitSl_joinSl hne (fun s hs => (hmem s hs).2)
  exact normList_fix_rel hfix hjne hhead hends hsplit

theorem normList_idem (cs : List Char) : normList (normList cs) = normList cs := by
  by_cases hcs : cs = []
  · subst hcs; decide
  · obtain ⟨n, ps, hshape, hps, hn⟩ :=
      processSegs_shape (!headSlash cs) (noSlash_of_mem_splitSl cs)
    have hbody : normBody (!headSlash cs) cs = joinSl (List.replicate n dotdot ++ ps) := by
      unfold normBody
      rw [hshape]
    by_cases hb : joinSl (List.replicate n dotdot ++ ps) = []
    · rw [normList_of_body hcs, hbody, if_pos hb]
      split_ifs <;> decide
    · have hne : List.replicate n dotdot ++ ps ≠ [] := by
        intro h0
        rw [h0] at hb
        exact hb rfl
      have hmem : ∀ s ∈ List.replicate n dotdot ++ ps, s ≠ [] ∧ noSlash s := by
        intro s hs
        rcases List.mem_append.mp hs with h | h
        · rw [List.eq_of_mem_replicate h]
          refine ⟨by simp [dotdot], ?_⟩
          unfold noSlash dotdot
          decide
        · exact ⟨(hps s h).1, (hps s h).2.2.2⟩
      have hfix : processSegs (!headSlash cs) (List.replicate n dotdot ++ ps) =
          List.replicate n dotdot ++ ps := processSegs_idem (!headSlash cs) hps hn
      have hjne : joinSl (List.replicate n dotdot ++ ps) ≠ [] := hb
      have hhead : headSlash (joinSl (List.replicate n dotdot ++ ps)) = false := by
        rcases hq : List.replicate n dotdot ++ ps with _ | ⟨s, ss⟩
        · exact absurd hq hne
        · have hm : s ≠ [] ∧ noSlash s := hmem s (by rw [hq]; exact List.mem_cons_self s ss)
          exact headSlash_joinSl hm.2 hm.1
      have hends : endsSlash (joinSl (List.replicate n dotdot ++ ps)) = false :=
        endsSlash_joinSl hmem
      have hsplit : splitSl (joinSl (List.replicate n dotdot ++ ps)) =
          List.replicate n dotdot ++ ps := splitSl_joinSl hne (fun s hs => (hmem s hs).2)
      rw [normList_of_body hcs, hbody, if_neg hb]
      split_ifs with h1 h2 h2
      · exact normList_fix_abs_trail (by rw [h1] at hfix; simpa using hfix) hjne hsplit
      · exact normList_fix_abs (by rw [h1] at hfix; simpa using hfix) hjne hends hsplit
      · have h1f : headSlash cs = false := by simpa using h1
        exact normList_fix_rel_trail (by rw [h1f] at hfix; simpa using hfix) hjne hhead hsplit
      · have h1f : headSlash cs = false := by simpa using h1
        exact normList_fix_rel (by rw [h1f] at hfix; simpa using hfix) hjne hhead hends hsplit

theorem normalize_idem (s : String) : normalize (normalize s) = normalize s :=
  congrArg String.mk (normList_idem s.data)

theorem headSlash_nil_false : headSlash [] = false := rfl

theorem exists_cons_of_headSlash {l : List Char} (h : headSlash l = true) :
    ∃ rest, l = '/' :: rest := by
  rcases l with _ | ⟨c, cs⟩
  · exact absurd h (by simp [headSlash])
  · simp only [headSlash, decide_eq_true_eq] at h
    exact ⟨cs, by rw [h]⟩

theorem ne_nil_of_headSlash {l : List Char} (h : headSlash l = true) : l ≠ [] := by
  intro h0
  rw [h0] at h
  exact absurd h (by simp [headSlash])

theorem resolveL_abs {s : List Char} (cwd : List Char) (h : headSlash s = true) :
    resolveL cwd s = '/' :: normBody false s := by
  have hs : s ≠ [] := ne_nil_of_headSlash h
  simp [resolveL, hs, h]

theorem goodSeg_of_processSegs_false {segs : List (List Char)}
    (h : ∀ s ∈ segs, noSlash s) : ∀ x ∈ processSegs false segs, goodSeg x := by
  obtain ⟨n, ps, heq, hps, hn⟩ := processSegs_shape false h
  rw [heq, hn rfl]
  simpa using hps

theorem segsOfAbs_resolveL {s : List Char} (cwd : List Char) (h : headSlash s = true) :
    segsOfAbs (resolveL cwd s) = processSegs false (splitSl s) := by
  have hgood : ∀ x ∈ processSegs false (splitSl s), goodSeg x :=
    goodSeg_of_processSegs_false (noSlash_of_mem_splitSl s)
  rw [resolveL_abs cwd h]
  unfold normBody segsOfAbs
  rcases hP : processSegs false (splitSl s) with _ | ⟨p, psr⟩
  · rw [show joinSl [] = [] from rfl]
    decide
  · rw [← hP, splitSl_cons_slash,
      splitSl_joinSl (by rw [hP]; simp) (fun x hx => (hgood x hx).2.2.2)]
    rw [List.filter_cons]
    simp only [List.isEmpty_nil, Bool.not_true, Bool.false_eq_true, if_false]
    exact List.filter_eq_self.mpr fun x hx => by
      simp [List.isEmpty_iff, (hgood x hx).1]

theorem commonLen_le_left (a b : List (List Char)) : commonLen a b ≤ a.length := by
  induction a generalizing b with
  | nil => simp [commonLen]
  | cons x as ih =>
    rcases b with _ | ⟨y, bs⟩
    · simp [commonLen]
    · unfold commonLen
      split_ifs
      · simpa using ih bs
      · simp

theorem commonLen_le_right (a b : List (List Char)) : commonLen a b ≤ b.length := by
  induction a generalizing b with
  | nil => simp [commonLen]
  | cons x as ih =>
    rcases b with _ | ⟨y, bs⟩
    · simp [commonLen]
    · unfold commonLen
      split_ifs
      · simpa using ih bs
      · simp

theorem eq_of_commonLen {a b : List (List Char)} (h1 : commonLen a b = a.length)
    (h2 : commonLen a b = b.length) : a = b := by
  induction a generalizing b with
  | nil =>
    rcases b with _ | ⟨y, bs⟩
    · rfl
    · rw [show commonLen [] (y :: bs) = 0 from rfl] at h2
      exact absurd h2.symm (by simp)
  | cons x as ih =>
    rcases b with _ | ⟨y, bs⟩
    · rw [show commonLen (x :: as) [] = 0 from rfl] at h1
      exact absurd h1.symm (by simp)
    · unfold commonLen at h1 h2
      split_ifs at h1 h2 with hxy
      · subst hxy
        simp only [List.length_cons, Nat.add_right_cancel_iff] at h1 h2
        rw [ih h1 h2]
      · exact absurd h1.symm (by simp)

theorem relativeL_spec {src dst : List Char} (cwd : List Char) (hsrc : headSlash src = true)
    (hdst : headSlash dst = true) :
    relativeL cwd src dst = [] ∨
      ∃ segs, segs ≠ [] ∧ (∀ x ∈ segs, x ≠ [] ∧ noSlash x) ∧
        relativeL cwd src dst = joinSl segs ∧ processSegs true segs = segs := by
  unfold relativeL
  by_cases hft : resolveL cwd src = resolveL cwd dst
  · rw [if_pos hft]
    exact Or.inl rfl
  · rw [if_neg hft]
    right
    have hfgood : ∀ x ∈ processSegs false (splitSl src), goodSeg x :=
      goodSeg_of_processSegs_false (noSlash_of_mem_splitSl src)
    have htgood : ∀ x ∈ processSegs false (splitSl dst), goodSeg x :=
      goodSeg_of_processSegs_false (noSlash_of_mem_splitSl dst)
    rw [segsOfAbs_resolveL cwd hsrc, segsOfAbs_resolveL cwd hdst]
    refine ⟨_, ?_, ?_, rfl, ?_⟩
    · intro h0
      rcases List.append_eq_nil.mp h0 with ⟨hrep, hdrop⟩
      have hlen1 : (processSegs false (splitSl src)).length -
          commonLen (processSegs false (splitSl src)) (processSegs false (splitSl dst)) = 0 := by
        have := congrArg List.length hrep
        simpa using this
      have hle1 := commonLen_le_left (processSegs false (splitSl src))
        (processSegs false (splitSl dst))
      have hle2 := commonLen_le_right (processSegs false (splitSl src))
        (processSegs false (splitSl dst))
      have hd := List.drop_eq_nil_iff.mp hdrop
      have heq1 : commonLen (processSegs false (splitSl src)) (processSegs false (splitSl dst)) =
          (processSegs false (splitSl src)).length := by omega
      have heq2 : commonLen (processSegs false (splitSl src)) (processSegs false (splitSl dst)) =
          (processSegs false (splitSl dst)).length := by omega
      have hPeq := eq_of_commonLen heq1 heq2
      apply hft
      rw [resolveL_abs cwd hsrc, resolveL_abs cwd hdst]
      unfold normBody
      rw [hPeq]
    · intro x hx
      rcases List.mem_append.mp hx with h | h
      · rw [List.eq_of_mem_replicate h]
        refine ⟨by simp [dotdot], ?_⟩
        unfold noSlash dotdot
        decide
      · have := htgood x (List.drop_subset _ _ h)
        exact ⟨this.1, this.2.2.2⟩
    · refine processSegs_idem true ?_ (by simp)
      intro x hx
      exact htgood x (List.drop_subset _ _ hx)

theorem relativeL_not_abs {src dst : List Char} (cwd : List Char)
    (hsrc : headSlash src = true) (hdst : headSlash dst = true) :
    headSlash (relativeL cwd src dst) = false := by
  rcases relativeL_spec cwd hsrc hdst with h | ⟨segs, hne, hmem, heq, _⟩
  · rw [h]
    rfl
  · rw [heq]
    rcases segs with _ | ⟨s, ss⟩
    · exact absurd rfl hne
    · exact headSlash_joinSl (hmem s (List.mem_cons_self s ss)).2
        (hmem s (List.mem_cons_self s ss)).1

theorem relativeL_norm {src dst : List Char} (cwd : List Char)
    (hsrc : headSlash src = true) (hdst : headSlash dst = true) :
    normList (relativeL cwd src dst) = relativeL cwd src dst ∨ relativeL cwd src dst = [] := by
  rcases relativeL_spec cwd hsrc hdst with h | ⟨segs, hne, hmem, heq, hfix⟩
  · exact Or.inr h
  · left
    rw [heq]
    exact normList_joinSl_fix hne hmem hfix

theorem isPre_refl (l : List Char) : isPre l l = true := by
  induction l with
  | nil => rfl
  | cons c cs ih => simp [isPre, ih]

theorem headSlash_of_isPre_slash {u t : List Char} (h : isPre ('/' :: u) t = true) :
    headSlash t = true := by
  rcases t with _ | ⟨c, cs⟩
  · exact absurd h (by simp [isPre])
  · simp only [isPre, Bool.and_eq_true, decide_eq_true_eq] at h
    simp [headSlash, h.1.symm]

end NodePath

namespace Build

open NodePath

theorem applyUpdate_none (acc : Constants) : applyUpdate acc none = acc := rfl

theorem applyUpdate_some (acc : Constants) (k v : String) :
    applyUpdate acc (some (k, v)) = setField acc k (some v) := rfl

theorem getField_eq_FS (c : Constants) : getField c "FUNCTIONS_SRC" = c.FUNCTIONS_SRC := by
  simp [getField]

theorem getField_eq_EFS (c : Constants) :
    getField c "EDGE_FUNCTIONS_SRC" = c.EDGE_FUNCTIONS_SRC := by
  simp [getField]

theorem setField_FS (c : Constants) (v : Option String) :
    setField c "FUNCTIONS_SRC" v = { c with FUNCTIONS_SRC := v } := by
  simp [setField]

theorem setField_EFS (c : Constants) (v : Option String) :
    setField c "EDGE_FUNCTIONS_SRC" v = { c with EDGE_FUNCTIONS_SRC := v } := by
  simp [setField]

theorem getField_overlay {c : Constants} {f e : Option String} {k : String}
    (h1 : k ≠ "FUNCTIONS_SRC") (h2 : k ≠ "EDGE_FUNCTIONS_SRC") :
    getField { c with FUNCTIONS_SRC := f, EDGE_FUNCTIONS_SRC := e } k = getField c k := by
  by_cases h3 : k = "CONFIG_PATH"
  · subst h3
    simp [getField]
  by_cases h4 : k = "PUBLISH_DIR"
  · subst h4
    simp [getField]
  by_cases h5 : k = "FUNCTIONS_SRC"
  · exact absurd h5 h1
  by_cases h6 : k = "PACKAGE_PATH"
  · subst h6
    simp [getField]
  by_cases h7 : k = "INTERNAL_EDGE_FUNCTIONS_SRC"
  · subst h7
    simp [getField]
  by_cases h8 : k = "INTERNAL_FUNCTIONS_SRC"
  · subst h8
    simp [getField]
  by_cases h9 : k = "FUNCTIONS_DIST"
  · subst h9
    simp [getField]
  by_cases h10 : k = "EDGE_FUNCTIONS_DIST"
  · subst h10
    simp [getField]
  by_cases h11 : k = "EDGE_FUNCTIONS_SRC"
  · exact absurd h11 h2
  by_cases h12 : k = "NETLIFY_BUILD_VERSION"
  · subst h12
    simp [getField]
  by_cases h13 : k = "SITE_ID"
  · subst h13
    simp [getField]
  by_cases h14 : k = "NETLIFY_API_TOKEN"
  · subst h14
    simp [getField]
  by_cases h15 : k = "NETLIFY_API_HOST"
  · subst h15
    simp [getField]
  by_cases h16 : k = "CACHE_DIR"
  · subst h16
    simp [getField]
  simp [getField, h3, h4, h5, h6, h7, h8, h9, h10, h11, h12, h13, h14, h15, h16]

theorem addDefaultConstants_shape (pathEx : String → Bool) (c : Constants) (bd : String) :
    ∃ f e, addDefaultConstants pathEx c bd =
      { c with FUNCTIONS_SRC := f, EDGE_FUNCTIONS_SRC := e } := by
  unfold addDefaultConstants addDefaultConstant DEFAULT_PATHS
  simp only [List.map_cons, List.map_nil]
  split_ifs <;>
    simp only [List.foldl_cons, List.foldl_nil, setField_FS, setField_EFS] <;>
    exact ⟨_, _, rfl⟩

theorem normalizePath_none (cwd buildDir key : String) :
    normalizePath cwd none buildDir key = none := rfl

theorem normalizePath_not_path_key (cwd : String) (v : Option String) (buildDir key : String)
    (h : CONSTANT_PATHS.contains key = false) : normalizePath cwd v buildDir key = v := by
  rcases v with _ | p
  · rfl
  · simp only [normalizePath]
    rw [if_pos (Or.inr h)]

theorem normalizePath_empty (cwd : String) {v : Option String} (buildDir key : String)
    (h : isEmptyValue v = true) : normalizePath cwd v buildDir key = v := by
  rcases v with _ | p
  · rfl
  · have hp : p = "" := by simpa [isEmptyValue] using h
    simp only [normalizePath]
    rw [if_pos (Or.inl hp)]

theorem mem_DEFAULT_PATHS_1 :
    (⟨"FUNCTIONS_SRC", "netlify-automatic-functions"⟩ : DefaultPathRule) ∈ DEFAULT_PATHS := by
  unfold DEFAULT_PATHS
  exact List.mem_cons_self _ _

theorem mem_DEFAULT_PATHS_2 :
    (⟨"FUNCTIONS_SRC", "netlify/functions"⟩ : DefaultPathRule) ∈ DEFAULT_PATHS := by
  unfold DEFAULT_PATHS
  exact List.mem_cons_of_mem _ (List.mem_cons_self _ _)

theorem mem_DEFAULT_PATHS_3 :
    (⟨"EDGE_FUNCTIONS_SRC", "netlify/edge-functions"⟩ : DefaultPathRule) ∈ DEFAULT_PATHS := by
  unfold DEFAULT_PATHS
  exact List.mem_cons_of_mem _ (List.mem_cons_of_mem _ (List.mem_cons_self _ _))

theorem addDefaultConstants_FS_none (pathEx : String → Bool) (c : Constants) (bd : String)
    (hg1 : isEmptyValue (getField c "FUNCTIONS_SRC") = false ∨
      pathEx (bd ++ "/" ++ "netlify-automatic-functions") = false)
    (hg2 : isEmptyValue (getField c "FUNCTIONS_SRC") = false ∨
      pathEx (bd ++ "/" ++ "netlify/functions") = false) :
    (addDefaultConstants pathEx c bd).FUNCTIONS_SRC = c.FUNCTIONS_SRC := by
  unfold addDefaultConstants addDefaultConstant DEFAULT_PATHS
  simp only [List.map_cons, List.map_nil]
  rw [if_pos hg1, if_pos hg2]
  simp only [List.foldl_cons, List.foldl_nil, applyUpdate_none, applyUpdate_some]
  by_cases g3 : isEmptyValue (getField c "EDGE_FUNCTIONS_SRC") = false ∨
      pathEx (bd ++ "/" ++ "netlify/edge-functions") = false
  · rw [if_pos g3, applyUpdate_none]
  · rw [if_neg g3, applyUpdate_some, setField_EFS]

theorem addDefaultConstants_EFS_none (pathEx : String → Bool) (c : Constants) (bd : String)
    (hg3 : isEmptyValue (getField c "EDGE_FUNCTIONS_SRC") = false ∨
      pathEx (bd ++ "/" ++ "netlify/edge-functions") = false) :
    (addDefaultConstants pathEx c bd).EDGE_FUNCTIONS_SRC = c.EDGE_FUNCTIONS_SRC := by
  unfold addDefaultConstants addDefaultConstant DEFAULT_PATHS
  simp only [List.map_cons, List.map_nil]
  rw [if_pos hg3]
  simp only [List.foldl_cons, List.foldl_nil, applyUpdate_none, applyUpdate_some]
  by_cases g1 : isEmptyValue (getField c "FUNCTIONS_SRC") = false ∨
      pathEx (bd ++ "/" ++ "netlify-automatic-functions") = false
  · rw [if_pos g1, applyUpdate_none]
    by_cases g2 : isEmptyValue (getField c "FUNCTIONS_SRC") = false ∨
        pathEx (bd ++ "/" ++ "netlify/functions") = false
    · rw [if_pos g2, applyUpdate_none]
    · rw [if_neg g2, applyUpdate_some, setField_FS]
  · rw [if_neg g1, applyUpdate_some, setField_FS]
    by_cases g2 : isEmptyValue (getField c "FUNCTIONS_SRC") = false ∨
        pathEx (bd ++ "/" ++ "netlify/functions") = false
    · rw [if_pos g2, applyUpdate_none]
    · rw [if_neg g2, applyUpdate_some, setField_FS]

/-- Claim C1 (counterexample): with `FUNCTIONS_SRC` unset and both candidate
directories (`netlify-automatic-functions` and `netlify/functions`) existing
under the build root `"/root"`, default detection does NOT assign
`netlify-automatic-functions`: every rule checks the original record, and
`Object.assign` applies the produced updates in declared order with later
updates overwriting earlier ones, so the later rule wins. -/
theorem c1_counterexample :
    isEmptyValue (getField ({} : Constants) "FUNCTIONS_SRC") = true ∧
    (fun s => s == "/root/netlify-automatic-functions" || s == "/root/netlify/functions")
        ("/root" ++ "/" ++ "netlify-automatic-functions") = true ∧
    (fun s => s == "/root/netlify-automatic-functions" || s == "/root/netlify/functions")
        ("/root" ++ "/" ++ "netlify/functions") = true ∧
    getField (addDefaultConstants
        (fun s => s == "/root/netlify-automatic-functions" || s == "/root/netlify/functions")
        ({} : Constants) "/root") "FUNCTIONS_SRC" ≠ some "netlify-automatic-functions" := by
  refine ⟨by decide, by decide, by decide, by decide⟩

/-- Claim C1 (amended): for default-path rules targeting the same constant,
the LAST rule in declared order whose candidate path exists wins. Every rule
is checked against the original record, so a rule is never skipped because an
earlier rule already filled the constant; among the updates of all satisfied
rules, the later one overwrites. In particular, when `FUNCTIONS_SRC` is unset
and both candidate directories exist, default detection assigns
`netlify/functions`. -/
theorem c1_last_satisfied_rule_wins (pathEx : String → Bool) (c : Constants) (buildDir : String)
    (hunset : isEmptyValue (getField c "FUNCTIONS_SRC") = true)
    (h1 : pathEx (buildDir ++ "/" ++ "netlify-automatic-functions") = true)
    (h2 : pathEx (buildDir ++ "/" ++ "netlify/functions") = true) :
    getField (addDefaultConstants pathEx c buildDir) "FUNCTIONS_SRC" =
      some "netlify/functions" := by
  have hg1 : ¬(isEmptyValue (getField c "FUNCTIONS_SRC") = false ∨
      pathEx (buildDir ++ "/" ++ "netlify-automatic-functions") = false) := by
    rw [hunset, h1]
    simp
  have hg2 : ¬(isEmptyValue (getField c "FUNCTIONS_SRC") = false ∨
      pathEx (buildDir ++ "/" ++ "netlify/functions") = false) := by
    rw [hunset, h2]
    simp
  rw [getField_eq_FS]
  unfold addDefaultConstants addDefaultConstant DEFAULT_PATHS
  simp only [List.map_cons, List.map_nil]
  rw [if_neg hg1, if_neg hg2]
  simp only [List.foldl_cons, List.foldl_nil, applyUpdate_none, applyUpdate_some]
  by_cases g3 : isEmptyValue (getField c "EDGE_FUNCTIONS_SRC") = false ∨
      pathEx (buildDir ++ "/" ++ "netlify/edge-functions") = false
  · rw [if_pos g3, applyUpdate_none, setField_FS, setField_FS]
  · rw [if_neg g3, applyUpdate_some, setField_FS, setField_FS, setField_EFS]

/-- Claim C1 witness for the amended theorem. -/
theorem c1_last_satisfied_rule_wins_witness :
    isEmptyValue (getField ({} : Constants) "FUNCTIONS_SRC") = true ∧
    getField (addDefaultConstants (fun _ => true) ({} : Constants) "/root") "FUNCTIONS_SRC" =
      some "netlify/functions" :=
  ⟨by decide, c1_last_satisfied_rule_wins (fun _ => true) {} "/root" (by decide) rfl rfl⟩

/-- Claim C3: default detection never overwrites an explicitly set non-empty
value: whatever the existence predicate says, a constant currently holding a
non-empty string keeps exactly that value. -/
theorem c3_non_overwrite (pathEx : String → Bool) (c : Constants) (buildDir k : String)
    (v : String) (hv : getField c k = some v) (hne : v ≠ "") :
    getField (addDefaultConstants pathEx c buildDir) k = some v := by
  by_cases hk1 : k = "FUNCTIONS_SRC"
  · subst hk1
    have hemp : isEmptyValue (getField c "FUNCTIONS_SRC") = false := by
      rw [hv]
      simp [isEmptyValue, hne]
    rw [getField_eq_FS,
      addDefaultConstants_FS_none pathEx c buildDir (Or.inl hemp) (Or.inl hemp),
      ← getField_eq_FS, hv]
  · by_cases hk2 : k = "EDGE_FUNCTIONS_SRC"
    · subst hk2
      have hemp : isEmptyValue (getField c "EDGE_FUNCTIONS_SRC") = false := by
        rw [hv]
        simp [isEmptyValue, hne]
      rw [getField_eq_EFS, addDefaultConstants_EFS_none pathEx c buildDir (Or.inl hemp),
        ← getField_eq_EFS, hv]
    · obtain ⟨f, e, hsh⟩ := addDefaultConstants_shape pathEx c buildDir
      rw [hsh, getField_overlay hk1 hk2, hv]

/-- Claim C3 witness. -/
theorem c3_non_overwrite_witness :
    getField ({ FUNCTIONS_SRC := some "src/functions" } : Constants) "FUNCTIONS_SRC" =
        some "src/functions" ∧
    ("src/functions" : String) ≠ "" ∧
    getField (addDefaultConstants (fun _ => true)
        ({ FUNCTIONS_SRC := some "src/functions" } : Constants) "/root") "FUNCTIONS_SRC" =
      some "src/functions" :=
  ⟨by decide, by decide,
    c3_non_overwrite (fun _ => true) { FUNCTIONS_SRC := some "src/functions" } "/root"
      "FUNCTIONS_SRC" "src/functions" (by decide) (by decide)⟩

/-- Claim C7: if a constant is unset and every rule targeting it has a failing
existence check (the `path-exists` collaborator returns `false`, I/O failures
included), default detection leaves the constant exactly as it was — still
unset — and no error is raised (the embedding is total). -/
theorem c7_unset_stays_unset (pathEx : String → Bool) (c : Constants) (buildDir k : String)
    (hunset : isEmptyValue (getField c k) = true)
    (hno : ∀ r ∈ DEFAULT_PATHS, r.constantName = k →
      pathEx (buildDir ++ "/" ++ r.defaultPath) = false) :
    getField (addDefaultConstants pathEx c buildDir) k = getField c k ∧
      isEmptyValue (getField (addDefaultConstants pathEx c buildDir) k) = true := by
  have main : getField (addDefaultConstants pathEx c buildDir) k = getField c k := by
    by_cases hk1 : k = "FUNCTIONS_SRC"
    · subst hk1
      have hp1 := hno _ mem_DEFAULT_PATHS_1 rfl
      have hp2 := hno _ mem_DEFAULT_PATHS_2 rfl
      rw [getField_eq_FS, addDefaultConstants_FS_none pathEx c buildDir (Or.inr hp1) (Or.inr hp2),
        ← getField_eq_FS]
    · by_cases hk2 : k = "EDGE_FUNCTIONS_SRC"
      · subst hk2
        have hp3 := hno _ mem_DEFAULT_PATHS_3 rfl
        rw [getField_eq_EFS, addDefaultConstants_EFS_none pathEx c buildDir (Or.inr hp3),
          ← getField_eq_EFS]
      · obtain ⟨f, e, hsh⟩ := addDefaultConstants_shape pathEx c buildDir
        rw [hsh, getField_overlay hk1 hk2]
  exact ⟨main, main ▸ hunset⟩

/-- Claim C7 witness. -/
theorem c7_unset_stays_unset_witness :
    isEmptyValue (getField ({} : Constants) "FUNCTIONS_SRC") = true ∧
    getField (addDefaultConstants (fun _ => false) ({} : Constants) "/root") "FUNCTIONS_SRC" =
        getField ({} : Constants) "FUNCTIONS_SRC" ∧
    isEmptyValue
      (getField (addDefaultConstants (fun _ => false) ({} : Constants) "/root")
        "FUNCTIONS_SRC") = true :=
  ⟨by decide,
    (c7_unset_stays_unset (fun _ => false) {} "/root" "FUNCTIONS_SRC" (by decide)
      (fun r _ _ => rfl)).1,
    (c7_unset_stays_unset (fun _ => false) {} "/root" "FUNCTIONS_SRC" (by decide)
      (fun r _ _ => rfl)).2⟩

/-- Claim C9: `PACKAGE_PATH` is path-valued but deliberately not a member of
`CONSTANT_PATHS`, so full-record normalization returns it exactly as supplied
for every record, build root and working directory. -/
theorem c9_package_path_untouched (cwd : String) (c : Constants) (buildDir : String) :
    (normalizeConstantsPaths cwd c buildDir).PACKAGE_PATH = c.PACKAGE_PATH ∧
      CONSTANT_PATHS.contains "PACKAGE_PATH" = false := by
  refine ⟨?_, by decide⟩
  show normalizePath cwd c.PACKAGE_PATH buildDir "PACKAGE_PATH" = c.PACKAGE_PATH
  exact normalizePath_not_path_key cwd _ buildDir _ (by decide)

theorem getField_normalized (cwd : String) (c : Constants) (buildDir k : String) :
    getField (normalizeConstantsPaths cwd c buildDir) k =
      normalizePath cwd (getField c k) buildDir k := by
  by_cases h1 : k = "CONFIG_PATH"
  · subst h1
    simp only [getField]
    norm_num
    rfl
  by_cases h2 : k = "PUBLISH_DIR"
  · subst h2
    simp only [getField]
    norm_num
    rfl
  by_cases h3 : k = "FUNCTIONS_SRC"
  · subst h3
    simp only [getField]
    norm_num
    rfl
  by_cases h4 : k = "PACKAGE_PATH"
  · subst h4
    simp only [getField]
    norm_num
    rfl
  by_cases h5 : k = "INTERNAL_EDGE_FUNCTIONS_SRC"
  · subst h5
    simp only [getField]
    norm_num
    rfl
  by_cases h6 : k = "INTERNAL_FUNCTIONS_SRC"
  · subst h6
    simp only [getField]
    norm_num
    rfl
  by_cases h7 : k = "FUNCTIONS_DIST"
  · subst h7
    simp only [getField]
    norm_num
    rfl
  by_cases h8 : k = "EDGE_FUNCTIONS_DIST"
  · subst h8
    simp only [getField]
    norm_num
    rfl
  by_cases h9 : k = "EDGE_FUNCTIONS_SRC"
  · subst h9
    simp only [getField]
    norm_num
    rfl
  by_cases h10 : k = "NETLIFY_BUILD_VERSION"
  · subst h10
    simp only [getField]
    norm_num
    rfl
  by_cases h11 : k = "SITE_ID"
  · subst h11
    simp only [getField]
    norm_num
    rfl
  by_cases h12 : k = "NETLIFY_API_TOKEN"
  · subst h12
    simp only [getField]
    norm_num
    rfl
  by_cases h13 : k = "NETLIFY_API_HOST"
  · subst h13
    simp only [getField]
    norm_num
    rfl
  by_cases h14 : k = "CACHE_DIR"
  · subst h14
    simp only [getField]
    norm_num
    rfl
  simp [getField, normalizePath_none, h1, h2, h3, h4, h5, h6, h7, h8, h9, h10, h11, h12, h13,
    h14]

/-- Claim C4: the distribution directories are mode dependent. In the record
built by `getConstants` (before the mutable-constants pass), when the mode is
the reserved remote identifier `buildbot` the supplied distribution
directories pass through unchanged; for any other mode they are the `join`
of the package path (defaulting to empty) with the distribution directory.
With `packagePath = "pkg"` and a distribution directory `"/tmp/dist"`, the
local join evaluates to `"pkg/tmp/dist"`. -/
theorem c4_mode_dependent_dist (getCacheDirF : Option String → String → String)
    (version : String) (a : GetConstantsArgs) :
    (getConstantsBase getCacheDirF version a).FUNCTIONS_DIST =
      some (if a.mode = "buildbot" then a.functionsDistDir
            else joinList [orEmptyStr a.packagePath, a.functionsDistDir]) ∧
    (getConstantsBase getCacheDirF version a).EDGE_FUNCTIONS_DIST =
      some (if a.mode = "buildbot" then a.edgeFunctionsDistDir
            else joinList [orEmptyStr a.packagePath, a.edgeFunctionsDistDir]) ∧
    ((getConstantsBase getCacheDirF version a).IS_LOCAL = true ↔ a.mode ≠ "buildbot") ∧
    joinList [("pkg" : String), "/tmp/dist"] = "pkg/tmp/dist" := by
  refine ⟨?_, ?_, ?_, by decide⟩ <;>
    by_cases hm : a.mode = "buildbot" <;> simp [getConstantsBase, hm]

/-- Claim C10: the recomputation overlay is unconditional. `PUBLISH_DIR`
always becomes the (normalized) live `build.publish`; so a live field that is
`undefined` wipes the base record's value, and `FUNCTIONS_SRC` /
`EDGE_FUNCTIONS_SRC` end up `undefined` too unless default detection
re-fills them. -/
theorem c10_overlay_unconditional (pathEx : String → Bool) (cwd : String) (c : Constants)
    (buildDir : String) (cfg : NetlifyConfig) :
    (addMutableConstants pathEx cwd c buildDir cfg).PUBLISH_DIR =
        normalizePath cwd cfg.build.publish buildDir "PUBLISH_DIR" ∧
    (cfg.build.publish = none →
      (addMutableConstants pathEx cwd c buildDir cfg).PUBLISH_DIR = none) ∧
    (cfg.functionsDirectory = none →
      pathEx (buildDir ++ "/" ++ "netlify-automatic-functions") = false →
      pathEx (buildDir ++ "/" ++ "netlify/functions") = false →
      (addMutableConstants pathEx cwd c buildDir cfg).FUNCTIONS_SRC = none) ∧
    (cfg.build.edge_functions = none →
      pathEx (buildDir ++ "/" ++ "netlify/edge-functions") = false →
      (addMutableConstants pathEx cwd c buildDir cfg).EDGE_FUNCTIONS_SRC = none) := by
  have h1 : (addMutableConstants pathEx cwd c buildDir cfg).PUBLISH_DIR =
      normalizePath cwd cfg.build.publish buildDir "PUBLISH_DIR" := by
    show normalizePath cwd
      (addDefaultConstants pathEx (mutableOverlay c cfg) buildDir).PUBLISH_DIR
      buildDir "PUBLISH_DIR" = normalizePath cwd cfg.build.publish buildDir "PUBLISH_DIR"
    obtain ⟨f, e, hsh⟩ := addDefaultConstants_shape pathEx (mutableOverlay c cfg) buildDir
    rw [hsh]
    rfl
  refine ⟨h1, fun hp => by rw [h1, hp, normalizePath_none], ?_, ?_⟩
  · intro hf hp1 hp2
    show normalizePath cwd
      (addDefaultConstants pathEx (mutableOverlay c cfg) buildDir).FUNCTIONS_SRC
      buildDir "FUNCTIONS_SRC" = none
    rw [addDefaultConstants_FS_none pathEx _ buildDir (Or.inr hp1) (Or.inr hp2)]
    show normalizePath cwd cfg.functionsDirectory buildDir "FUNCTIONS_SRC" = none
    rw [hf, normalizePath_none]
  · intro he hp3
    show normalizePath cwd
      (addDefaultConstants pathEx (mutableOverlay c cfg) buildDir).EDGE_FUNCTIONS_SRC
      buildDir "EDGE_FUNCTIONS_SRC" = none
    rw [addDefaultConstants_EFS_none pathEx _ buildDir (Or.inr hp3)]
    show normalizePath cwd cfg.build.edge_functions buildDir "EDGE_FUNCTIONS_SRC" = none
    rw [he, normalizePath_none]

/-- Claim C10 witness: a base record with a non-empty `PUBLISH_DIR` loses it
when the live configuration has `publish` undefined. -/
theorem c10_overlay_unconditional_witness :
    (addMutableConstants (fun _ => false) "/cwd"
        ({ PUBLISH_DIR := some "dist", FUNCTIONS_SRC := some "fns" } : Constants)
        "/root" {}).PUBLISH_DIR = none ∧
    (addMutableConstants (fun _ => false) "/cwd"
        ({ PUBLISH_DIR := some "dist", FUNCTIONS_SRC := some "fns" } : Constants)
        "/root" {}).FUNCTIONS_SRC = none :=
  ⟨(c10_overlay_unconditional (fun _ => false) "/cwd"
      { PUBLISH_DIR := some "dist", FUNCTIONS_SRC := some "fns" } "/root" {}).2.1 rfl,
    (c10_overlay_unconditional (fun _ => false) "/cwd"
      { PUBLISH_DIR := some "dist", FUNCTIONS_SRC := some "fns" } "/root" {}).2.2.1 rfl rfl rfl⟩

/-- Claim C8: normalization is a no-op on every key outside the path-constant
set and on every empty (absent or empty-string) value, and never touches the
boolean `IS_LOCAL`. -/
theorem c8_normalization_noop (cwd : String) (c : Constants) (buildDir : String) :
    (∀ k, CONSTANT_PATHS.contains k = false ∨ isEmptyValue (getField c k) = true →
      getField (normalizeConstantsPaths cwd c buildDir) k = getField c k) ∧
    (normalizeConstantsPaths cwd c buildDir).IS_LOCAL = c.IS_LOCAL := by
  refine ⟨?_, rfl⟩
  intro k hk
  rw [getField_normalized]
  rcases hk with h | h
  · exact normalizePath_not_path_key cwd _ buildDir _ h
  · exact normalizePath_empty cwd buildDir k h

/-- Claim C8 witness: `SITE_ID` (not a path constant) passes through; an
empty-string `PUBLISH_DIR` passes through. -/
theorem c8_normalization_noop_witness :
    getField (normalizeConstantsPaths "/cwd"
        ({ SITE_ID := some "site-123", PUBLISH_DIR := some "" } : Constants) "/root")
        "SITE_ID" =
      getField ({ SITE_ID := some "site-123", PUBLISH_DIR := some "" } : Constants) "SITE_ID" ∧
    getField (normalizeConstantsPaths "/cwd"
        ({ SITE_ID := some "site-123", PUBLISH_DIR := some "" } : Constants) "/root")
        "PUBLISH_DIR" =
      getField ({ SITE_ID := some "site-123", PUBLISH_DIR := some "" } : Constants)
        "PUBLISH_DIR" :=
  ⟨(c8_normalization_noop "/cwd" { SITE_ID := some "site-123", PUBLISH_DIR := some "" }
      "/root").1 "SITE_ID" (Or.inl (by decide)),
    (c8_normalization_noop "/cwd" { SITE_ID := some "site-123", PUBLISH_DIR := some "" }
      "/root").1 "PUBLISH_DIR" (Or.inr (by decide))⟩

/-- Claim C6 (counterexample): for the syntactically non-canonical build root
`"/a//b"`, normalizing the root against itself yields the canonicalized path
`"/a/b"`, not `"."`: the canonical form no longer equals (or has as prefix)
the stored root string. -/
theorem c6_counterexample :
    normalizePath "/cwd" (some "/a//b") "/a//b" "PUBLISH_DIR" = some "/a/b" ∧
    some ("/a/b" : String) ≠ some "." ∧
    CONSTANT_PATHS.contains "PUBLISH_DIR" = true := by
  refine ⟨by decide, by decide, by decide⟩

/-- Claim C6 (amended): root collapse holds for every build root in canonical
form: if `normalize root = root` then for every path-bearing key,
`normalizePath root root k = "."`. -/
theorem c6_root_collapse (cwd root k : String) (hk : CONSTANT_PATHS.contains k = true)
    (hcanon : NodePath.normalize root = root) :
    normalizePath cwd (some root) root k = some "." := by
  have hne : root ≠ "" := by
    intro h0
    rw [h0] at hcanon
    exact absurd hcanon (by decide)
  have hguard : ¬(root = "" ∨ CONSTANT_PATHS.contains k = false) := by
    rintro (h | h)
    · exact hne h
    · rw [h] at hk
      exact absurd hk (by decide)
  simp only [normalizePath]
  rw [if_neg hguard]
  show (if NodePath.normalize root = root then some "."
        else if startsWithS (NodePath.normalize root) root = true
        then some (NodePath.relative cwd root (NodePath.normalize root))
        else some (NodePath.normalize root)) = some "."
  rw [if_pos hcanon]

/-- Claim C6 witness. -/
theorem c6_root_collapse_witness :
    CONSTANT_PATHS.contains "PUBLISH_DIR" = true ∧
    NodePath.normalize "/a/b" = "/a/b" ∧
    normalizePath "/cwd" (some "/a/b") "/a/b" "PUBLISH_DIR" = some "." :=
  ⟨by decide, by decide,
    c6_root_collapse "/cwd" "/a/b" "PUBLISH_DIR" (by decide) (by decide)⟩

theorem ne_true_of_eq_false {b : Bool} (h : b = false) : b ≠ true := by
  rw [h]
  decide

theorem startsWithS_self (s : String) : startsWithS s s = true :=
  isPre_refl s.data

theorem startsWithS_eq_false {s t : String} (ht : isAbsS t = true) (hs : isAbsS s = false) :
    startsWithS s t = false := by
  cases hsw : startsWithS s t with
  | false => rfl
  | true =>
    exfalso
    unfold startsWithS at hsw
    obtain ⟨rest, hr⟩ := exists_cons_of_headSlash ht
    rw [hr] at hsw
    have hh : headSlash s.data = true := headSlash_of_isPre_slash hsw
    have hh2 : headSlash s.data = false := hs
    rw [hh] at hh2
    exact absurd hh2 (by decide)

theorem ne_of_abs_mismatch {s t : String} (hs : isAbsS s = false) (ht : isAbsS t = true) :
    s ≠ t := by
  intro h
  rw [h] at hs
  rw [hs] at ht
  exact absurd ht (by decide)

theorem normalizePath_cases (cwd p buildDir k : String)
    (hguard : ¬(p = "" ∨ CONSTANT_PATHS.contains k = false)) :
    normalizePath cwd (some p) buildDir k =
      if NodePath.normalize p = buildDir then some "."
      else if startsWithS (NodePath.normalize p) buildDir = true
      then some (NodePath.relative cwd buildDir (NodePath.normalize p))
      else some (NodePath.normalize p) := by
  simp only [normalizePath]
  rw [if_neg hguard]

theorem normalizePath_empty_str (cwd buildDir k : String) :
    normalizePath cwd (some "") buildDir k = some "" := by
  simp [normalizePath]

/-- Claim C5 (counterexample): the absolute path `"/a/bc"` is canonical and
does not reside under the build root `"/a/b"` (it is a sibling directory
whose name happens to extend the root string), yet `normalizePath` rewrites
it to `"../bc"` instead of returning it unchanged, because residence is
tested with a string `startsWith`. -/
theorem c5_counterexample :
    NodePath.normalize "/a/bc" = "/a/bc" ∧
    isAbsS "/a/bc" = true ∧
    CONSTANT_PATHS.contains "PUBLISH_DIR" = true ∧
    normalizePath "/cwd" (some "/a/bc") "/a/b" "PUBLISH_DIR" = some "../bc" ∧
    some ("../bc" : String) ≠ some "/a/bc" := by
  refine ⟨by decide, by decide, by decide, by decide, by decide⟩

/-- Claim C5 (amended): for an absolute build root and a path-bearing key,
the normalized value is `"."`, a non-absolute (relative) path, or the
canonicalized input unchanged; and whenever the canonicalized input does not
have the build root as a string prefix it is returned unchanged. (The claim's
"does not reside under the build root" must be read as this string-prefix
test: an absolute path outside the root that shares the root as a string
prefix, such as `"/a/bc"` under root `"/a/b"`, is rewritten to a
`..`-relative path rather than passed through.) -/
theorem c5_normalized_range (cwd p buildDir k : String)
    (habs : isAbsS buildDir = true) (hk : CONSTANT_PATHS.contains k = true) :
    (normalizePath cwd (some p) buildDir k = some "." ∨
      (∃ s, normalizePath cwd (some p) buildDir k = some s ∧ isAbsS s = false) ∨
      normalizePath cwd (some p) buildDir k = some (NodePath.normalize p)) ∧
    (p ≠ "" → startsWithS (NodePath.normalize p) buildDir = false →
      normalizePath cwd (some p) buildDir k = some (NodePath.normalize p)) := by
  by_cases hp : p = ""
  · subst hp
    refine ⟨Or.inr (Or.inl ⟨"", normalizePath_empty_str cwd buildDir k, by decide⟩),
      fun hne _ => absurd rfl hne⟩
  · have hguard : ¬(p = "" ∨ CONSTANT_PATHS.contains k = false) := by
      rintro (h | h)
      · exact hp h
      · rw [h] at hk
        exact absurd hk (by decide)
    rw [normalizePath_cases cwd p buildDir k hguard]
    by_cases h1 : NodePath.normalize p = buildDir
    · rw [if_pos h1]
      refine ⟨Or.inl rfl, fun _ hsw => ?_⟩
      rw [h1, startsWithS_self] at hsw
      exact absurd hsw (by decide)
    · rw [if_neg h1]
      by_cases h2 : startsWithS (NodePath.normalize p) buildDir = true
      · rw [if_pos h2]
        have hdstAbs : headSlash (NodePath.normalize p).data = true := by
          obtain ⟨rest, hr⟩ := exists_cons_of_headSlash habs
          unfold startsWithS at h2
          rw [hr] at h2
          exact headSlash_of_isPre_slash h2
        have hrabs : isAbsS (NodePath.relative cwd buildDir (NodePath.normalize p)) = false :=
          relativeL_not_abs cwd.data habs hdstAbs
        refine ⟨Or.inr (Or.inl ⟨_, rfl, hrabs⟩), fun _ hsw => ?_⟩
        rw [h2] at hsw
        exact absurd hsw (by decide)
      · rw [if_neg h2]
        exact ⟨Or.inr (Or.inr rfl), fun _ _ => rfl⟩

/-- Claim C5 witness: instantiation at a path outside the build root whose
canonical form does not share the root as a string prefix. -/
theorem c5_normalized_range_witness :
    isAbsS "/a/b" = true ∧
    CONSTANT_PATHS.contains "PUBLISH_DIR" = true ∧
    ("/x/y" : String) ≠ "" ∧
    startsWithS (NodePath.normalize "/x/y") "/a/b" = false ∧
    normalizePath "/cwd" (some "/x/y") "/a/b" "PUBLISH_DIR" =
      some (NodePath.normalize "/x/y") :=
  ⟨by decide, by decide, by decide, by decide,
    (c5_normalized_range "/cwd" "/x/y" "/a/b" "PUBLISH_DIR" (by decide) (by decide)).2
      (by decide) (by decide)⟩

/-- Claim C2 (counterexample): idempotence fails for a relative build root:
with build root `"a"`, working directory `"/c"` and path `"a/a/b"`, the first
normalization yields `"a/b"`, which still has the root as a string prefix, so
a second normalization strips it again to `"b"`. -/
theorem c2_counterexample :
    normalizePath "/c" (some "a/a/b") "a" "PUBLISH_DIR" = some "a/b" ∧
    normalizePath "/c" (normalizePath "/c" (some "a/a/b") "a" "PUBLISH_DIR") "a"
        "PUBLISH_DIR" = some "b" ∧
    normalizePath "/c" (normalizePath "/c" (some "a/a/b") "a" "PUBLISH_DIR") "a"
        "PUBLISH_DIR" ≠ normalizePath "/c" (some "a/a/b") "a" "PUBLISH_DIR" := by
  refine ⟨by decide, by decide, by decide⟩

/-- Claim C2 (amended): path normalization is idempotent for every absolute
build root (a root starting with `'/'`, which is what the program ever
passes): for every path value, path-bearing key and working directory,
re-normalizing the result is a no-op. For a relative build root the property
fails (see the counterexample), because the output of `path.relative` can
again have the root as a string prefix. -/
theorem c2_idempotent_abs (cwd : String) (p : Option String) (buildDir k : String)
    (habs : isAbsS buildDir = true) :
    normalizePath cwd (normalizePath cwd p buildDir k) buildDir k =
      normalizePath cwd p buildDir k := by
  rcases p with _ | q
  · rfl
  · by_cases hguard : q = "" ∨ CONSTANT_PATHS.contains k = false
    · have e1 : normalizePath cwd (some q) buildDir k = some q := by
        simp only [normalizePath]
        rw [if_pos hguard]
      rw [e1, e1]
    · have hkk : CONSTANT_PATHS.contains k = true := by
        cases hc : CONSTANT_PATHS.contains k with
        | false => exact absurd (Or.inr hc) hguard
        | true => rfl
      rw [normalizePath_cases cwd q buildDir k hguard]
      by_cases h1 : NodePath.normalize q = buildDir
      · rw [if_pos h1]
        have g2 : ¬(("." : String) = "" ∨ CONSTANT_PATHS.contains k = false) := by
          rintro (h | h)
          · exact absurd h (by decide)
          · rw [h] at hkk
            exact absurd hkk (by decide)
        rw [normalizePath_cases cwd "." buildDir k g2]
        rw [show NodePath.normalize "." = "." from by decide]
        rw [if_neg (ne_of_abs_mismatch (by decide) habs),
          if_neg (ne_true_of_eq_false (startsWithS_eq_false habs (by decide)))]
      · rw [if_neg h1]
        by_cases h2 : startsWithS (NodePath.normalize q) buildDir = true
        · rw [if_pos h2]
          have hdstAbs : headSlash (NodePath.normalize q).data = true := by
            obtain ⟨rest, hr⟩ := exists_cons_of_headSlash habs
            unfold startsWithS at h2
            rw [hr] at h2
            exact headSlash_of_isPre_slash h2
          rcases relativeL_norm cwd.data habs hdstAbs with hnorm | hempty
          · have hrne : NodePath.relative cwd buildDir (NodePath.normalize q) ≠ "" := by
              intro h0
              have h0d : relativeL cwd.data buildDir.data (NodePath.normalize q).data = [] :=
                congrArg String.data h0
              rw [h0d] at hnorm
              exact absurd hnorm (by decide)
            have g2 : ¬(NodePath.relative cwd buildDir (NodePath.normalize q) = "" ∨
                CONSTANT_PATHS.contains k = false) := by
              rintro (h | h)
              · exact hrne h
              · rw [h] at hkk
                exact absurd hkk (by decide)
            rw [normalizePath_cases cwd _ buildDir k g2]
            have hnr : NodePath.normalize
                (NodePath.relative cwd buildDir (NodePath.normalize q)) =
                NodePath.relative cwd buildDir (NodePath.normalize q) :=
              congrArg String.mk hnorm
            rw [hnr]
            have hrabs : isAbsS (NodePath.relative cwd buildDir (NodePath.normalize q)) =
                false := relativeL_not_abs cwd.data habs hdstAbs
            rw [if_neg (ne_of_abs_mismatch hrabs habs),
              if_neg (ne_true_of_eq_false (startsWithS_eq_false habs hrabs))]
          · have hre : NodePath.relative cwd buildDir (NodePath.normalize q) = "" :=
              congrArg String.mk hempty
            rw [hre, normalizePath_empty_str]
        · rw [if_neg h2]
          have hqne : NodePath.normalize q ≠ "" := by
            intro h0
            exact normList_ne_nil q.data (congrArg String.data h0)
          have g2 : ¬(NodePath.normalize q = "" ∨ CONSTANT_PATHS.contains k = false) := by
            rintro (h | h)
            · exact hqne h
            · rw [h] at hkk
              exact absurd hkk (by decide)
          rw [normalizePath_cases cwd _ buildDir k g2, normalize_idem, if_neg h1, if_neg h2]

/-- Claim C2 witness: idempotence at an absolute build root, on a path under
the root. -/
theorem c2_idempotent_abs_witness :
    isAbsS "/a/b" = true ∧
    normalizePath "/cwd" (normalizePath "/cwd" (some "/a/b/c") "/a/b" "PUBLISH_DIR")
        "/a/b" "PUBLISH_DIR" =
      normalizePath "/cwd" (some "/a/b/c") "/a/b" "PUBLISH_DIR" :=
  ⟨by decide, c2_idempotent_abs "/cwd" (some "/a/b/c") "/a/b" "PUBLISH_DIR" (by decide)⟩

end Build
